import Mathlib

/-!
Shallow embedding of `src/ShortCuts/registry/shortcutsRegistry.ts`
(react-shortcuts-provider).

JavaScript strings are modelled as Lean `String`; the three string
operations the source uses (`toLowerCase`, `split('+')`, `trim`) are
modelled character-by-character (ASCII case folding, which coincides with
JS `toLowerCase` on the ASCII key-combination strings the module handles).
JS `Map` objects (which preserve insertion order) are modelled as
association lists; `Map.set` replaces in place or appends, `Map.delete`
removes the unique binding.  Plain JS objects used as string-keyed records
are modelled the same way (string keys enumerate in insertion order).
Callbacks are modelled symbolically: an `ShortcutAction` carries an identifier and
whether invoking it throws; invocations are recorded in an output list, so
"the action was invoked" is observable.  `Array.prototype.sort` is a
stable sort; with respect to the total preorder given by the comparator
`(a.order ?? MAX_SAFE_INTEGER) - (b.order ?? MAX_SAFE_INTEGER)` the stable
sorted result is unique, so it is modelled by `List.insertionSort` (stable)
over that preorder.  The debounced store update (`debouncedUpdateRegistry`,
50 ms) is modelled by a `pending` flag set by mutations and an explicit
`updateRegistry` step that recomputes the store snapshot when the timer
fires.
-/

/-! ### JS string primitives -/

/-- JS `String.prototype.toLowerCase`, restricted to ASCII case folding. -/
def jsLower (s : String) : String := ⟨s.toList.map Char.toLower⟩

def splitPlusAux : List Char → List Char → List String
  | [], acc => [⟨acc.reverse⟩]
  | c :: rest, acc =>
    if c = '+' then ⟨acc.reverse⟩ :: splitPlusAux rest []
    else splitPlusAux rest (c :: acc)

/-- JS `String.prototype.split('+')`: every `'+'` separates, empty pieces kept,
`""` splits to `[""]`. -/
def jsSplitPlus (s : String) : List String := splitPlusAux s.toList []

def isJsSpace (c : Char) : Bool := c = ' ' || c = '\t' || c = '\n' || c = '\r'

/-- JS `String.prototype.trim` (ASCII whitespace). -/
def jsTrim (s : String) : String :=
  ⟨((s.toList.dropWhile isJsSpace).reverse.dropWhile isJsSpace).reverse⟩

/-! ### Data model (`ShortcutEntry`, `KeyCombination`, events) -/

/-- Symbolic model of a registered `() => void` callback: `id` identifies it,
`throws` says whether invoking it raises an exception. -/
structure ShortcutAction where
  id : Nat
  throws : Bool
deriving DecidableEq

/-- `ShortcutEntry` from the source (`enabled` is always set by
`registerShortcut`, so it is a plain `Bool`; `order` is the optional numeric
sort key). -/
structure ShortcutEntry where
  name : String
  keyCombo : String
  description : String
  action : ShortcutAction
  category : String
  enabled : Bool
  order : Option Int
deriving DecidableEq

/-- `KeyCombination` from the source; the optional boolean flags (`undefined`
coerced by `!!` to `false`) are modelled as `Bool` defaulting to `false`. -/
@[ext]
structure KeyCombination where
  key : String
  ctrlKey : Bool := false
  shiftKey : Bool := false
  altKey : Bool := false
  metaKey : Bool := false
deriving DecidableEq

/-- The part of a DOM event target the dispatch guard inspects:
`instanceof HTMLInputElement / HTMLTextAreaElement / HTMLSelectElement`
and the `contentEditable` property value. -/
structure EventTarget where
  isInput : Bool
  isTextArea : Bool
  isSelect : Bool
  contentEditable : String
deriving DecidableEq

/-- The fields of a `KeyboardEvent` the module reads. -/
structure KeyEvent where
  key : String
  code : String
  ctrlKey : Bool
  shiftKey : Bool
  altKey : Bool
  metaKey : Bool
  target : EventTarget
deriving DecidableEq

/-! ### `parseKeyCombo` / `matchesKeyCombo` (source lines 142-188) -/

/-- The `for (const part of parts)` loop body of `parseKeyCombo`:
`switch (part.trim())` over the modifier tokens, default branch overwrites
`result.key`. -/
def parseKeyComboAux : List String → KeyCombination → KeyCombination
  | [], result => result
  | part :: rest, result =>
    let t := jsTrim part
    if t == "ctrl" || t == "control" then
      parseKeyComboAux rest { result with ctrlKey := true }
    else if t == "shift" then
      parseKeyComboAux rest { result with shiftKey := true }
    else if t == "alt" then
      parseKeyComboAux rest { result with altKey := true }
    else if t == "cmd" || t == "meta" then
      parseKeyComboAux rest { result with metaKey := true }
    else
      parseKeyComboAux rest { result with key := t }

/-- `parseKeyCombo`: lower-case the whole string, split on `'+'`, fold the
switch over the parts starting from `{ key: '' }`. -/
def parseKeyCombo (keyCombo : String) : KeyCombination :=
  parseKeyComboAux (jsSplitPlus (jsLower keyCombo)) { key := "" }

/-- The event-key normalization at the top of `matchesKeyCombo`
(lines 178-180): lower-case, then `' '` becomes `"space"`, then `"escape"`
becomes `"esc"`. -/
def normalizeEventKey (key : String) : String :=
  let eventKey := jsLower key
  let eventKey := if eventKey == " " then "space" else eventKey
  let eventKey := if eventKey == "escape" then "esc" else eventKey
  eventKey

/-- `matchesKeyCombo` (lines 174-188).  Note the source never reads
`combo.metaKey`: the combo's ctrl flag is compared with
`event.ctrlKey || event.metaKey`. -/
def matchesKeyCombo (event : KeyEvent) (keyCombo : String) : Bool :=
  let combo := parseKeyCombo keyCombo
  let eventKey := normalizeEventKey event.key
  let keyMatches := eventKey == combo.key ||
    jsLower event.code == "key" ++ combo.key
  let ctrlMatches := combo.ctrlKey == (event.ctrlKey || event.metaKey)
  let shiftMatches := combo.shiftKey == event.shiftKey
  let altMatches := combo.altKey == event.altKey
  keyMatches && ctrlMatches && shiftMatches && altMatches

example : parseKeyCombo "Ctrl+A" = { key := "a", ctrlKey := true } := by decide
example : parseKeyCombo "Ctrl+Shift+Z" =
    { key := "z", ctrlKey := true, shiftKey := true } := by decide
example : parseKeyCombo "a+b" = { key := "b" } := by decide
example : parseKeyCombo "" = { key := "" } := by decide
example : parseKeyCombo " Cmd + D " = { key := "d", metaKey := true } := by
  decide

/-! ### Association-list model of JS `Map` / string-keyed objects -/

/-- `Map.get` / object indexing: first (= unique) binding of a key. -/
def lookupA {β : Type} : List (String × β) → String → Option β
  | [], _ => none
  | (k, v) :: rest, key => if k = key then some v else lookupA rest key

/-- `Map.set` / object assignment: replace in place, else append at the end
(JS `Map`s and string-keyed objects preserve insertion order). -/
def setA {β : Type} : List (String × β) → String → β → List (String × β)
  | [], key, v => [(key, v)]
  | (k, w) :: rest, key, v =>
    if k = key then (key, v) :: rest else (k, w) :: setA rest key v

/-- `Map.delete`: remove the binding of a key (the first, which is the only
one for a well-formed map). -/
def deleteA {β : Type} : List (String × β) → String → List (String × β)
  | [], _ => []
  | (k, w) :: rest, key => if k = key then rest else (k, w) :: deleteA rest key

/-! ### Registry state (source lines 77-137) -/

/-- The module-level mutable state: the raw two-level registry map
(`shortcutsRegistry`), the zustand store's derived snapshot
(`store.shortcuts`), and whether a debounced `updateRegistry` call is
pending (`updateTimer` armed). -/
structure RegState where
  registry : List (String × List (String × ShortcutEntry))
  snapshot : List (String × List ShortcutEntry)
  pending : Bool
deriving DecidableEq

/-- `Object.values(DEFAULT_SHORTCUT_CATEGORIES)` in declaration order. -/
def defaultCategories : List String :=
  ["navigation", "viewSettings", "tools", "editing", "custom"]

/-- The initial module state: empty registry map, store initialized with the
five default categories mapped to empty arrays, no timer armed. -/
def initialState : RegState :=
  { registry := []
    snapshot := defaultCategories.map (fun c => (c, []))
    pending := false }

/-- `a.order ?? Number.MAX_SAFE_INTEGER`, the sort key used by both
`updateRegistry` and `getAllShortcuts`. -/
def orderKey (e : ShortcutEntry) : Int := e.order.getD 9007199254740991

/-- The total preorder the comparator `orderA - orderB` sorts by. -/
def orderLE (a b : ShortcutEntry) : Prop := orderKey a ≤ orderKey b

instance : DecidableRel orderLE :=
  fun a b => inferInstanceAs (Decidable (orderKey a ≤ orderKey b))

instance : IsTotal ShortcutEntry orderLE := ⟨fun x y => Int.le_total (orderKey x) (orderKey y)⟩

instance : IsTrans ShortcutEntry orderLE := ⟨fun _ _ _ => Int.le_trans⟩

/-- `entries.sort((a, b) => orderA - orderB)`.  `Array.prototype.sort` is
stable and a stable sort by a total preorder has a unique result, so the
stable `List.insertionSort` computes exactly it. -/
def sortByOrder (entries : List ShortcutEntry) : List ShortcutEntry :=
  entries.insertionSort orderLE

/-- `updateRegistry` (lines 102-130): rebuild the store snapshot from the
raw registry map — default categories first (each reset to `[]`), then for
each registered category (in `Map` insertion order) the category's entries
(in `Map` insertion order) sorted by `orderKey`. -/
def buildSnapshot (registry : List (String × List (String × ShortcutEntry))) :
    List (String × List ShortcutEntry) :=
  registry.foldl
    (fun acc cm => setA acc cm.1 (sortByOrder (cm.2.map Prod.snd)))
    (defaultCategories.map (fun c => (c, [])))

/-- The debounce timer firing: commit the recomputed snapshot to the store. -/
def updateRegistry (s : RegState) : RegState :=
  { s with snapshot := buildSnapshot s.registry, pending := false }

/-- `registerShortcut` (lines 201-227): `initRegistry` the category, build
the entry, `registry.set(name, entry)` (replacing any entry of the same
name), then `debouncedUpdateRegistry()` (arm the timer). -/
def registerShortcut (s : RegState) (category name keyCombo : String)
    (action : ShortcutAction) (description : String)
    (enabled : Bool := true) (order : Option Int := none) : RegState :=
  let registry := (lookupA s.registry category).getD []
  let shortcutEntry : ShortcutEntry :=
    { name, keyCombo, description, action, category, enabled, order }
  { s with
    registry := setA s.registry category (setA registry name shortcutEntry)
    pending := true }

/-- `unregisterShortcut` (lines 235-250): no-op for an unknown category;
delete the name, drop the category if it became empty, and arm the timer
only if a deletion actually happened. -/
def unregisterShortcut (s : RegState) (category name : String) : RegState :=
  match lookupA s.registry category with
  | none => s
  | some registry =>
    let deleted := (lookupA registry name).isSome
    let registry' := deleteA registry name
    { s with
      registry :=
        if registry'.isEmpty then deleteA s.registry category
        else setA s.registry category registry'
      pending := s.pending || deleted }

/-- `getShortcuts` (lines 258-261): read the store snapshot,
`storeState.shortcuts[category] || []`. -/
def getShortcuts (s : RegState) (category : String) : List ShortcutEntry :=
  (lookupA s.snapshot category).getD []

/-- `Object.values(storeState.shortcuts)` flattened — the list
`getAllShortcuts` accumulates before its final sort. -/
def flattenedSnapshot (s : RegState) : List ShortcutEntry :=
  (s.snapshot.map Prod.snd).flatten

/-- `getAllShortcuts` (lines 286-299): flatten all snapshot categories in
enumeration order, then sort by `orderKey`. -/
def getAllShortcuts (s : RegState) : List ShortcutEntry :=
  sortByOrder (flattenedSnapshot s)

/-- `hasShortcut` (lines 319-322): looks at the raw registry map, not the
debounced snapshot. -/
def hasShortcut (s : RegState) (category name : String) : Bool :=
  match lookupA s.registry category with
  | some registry => (lookupA registry name).isSome
  | none => false

/-- `executeShortcut` (lines 331-345).  Result: the state after the call
(the function performs no registry mutation), the returned boolean, and the
ids of the actions invoked.  A throwing action is invoked but the exception
is caught and `false` returned. -/
def executeShortcut (s : RegState) (category name : String) :
    RegState × Bool × List Nat :=
  match lookupA s.registry category with
  | none => (s, false, [])
  | some registry =>
    match lookupA registry name with
    | none => (s, false, [])
    | some shortcut =>
      if !shortcut.enabled then (s, false, [])
      else if shortcut.action.throws then (s, false, [shortcut.action.id])
      else (s, true, [shortcut.action.id])

/-! ### Dispatch handler (`useKeyboardShortcutHandler`, lines 409-443) -/

/-- The guard at the top of `handleKeyDown` (lines 414-421). -/
def isTextEntryTarget (t : EventTarget) : Bool :=
  t.isInput || t.isTextArea || t.isSelect || t.contentEditable == "true"

/-- What a key-press produces: which entries had their action invoked
(in order), and whether `preventDefault` / `stopPropagation` were called. -/
structure DispatchResult where
  invoked : List ShortcutEntry
  defaultPrevented : Bool
  propagationStopped : Bool
deriving DecidableEq

/-- The `for (const shortcut of allShortcuts)` loop of `handleKeyDown`
(lines 425-436): on the first enabled matching entry, suppress the event,
invoke the action (exceptions caught), and `break`. -/
def scanShortcuts (event : KeyEvent) : List ShortcutEntry → DispatchResult
  | [] =>
    { invoked := [], defaultPrevented := false, propagationStopped := false }
  | shortcut :: rest =>
    if shortcut.enabled && matchesKeyCombo event shortcut.keyCombo then
      { invoked := [shortcut], defaultPrevented := true
        propagationStopped := true }
    else
      scanShortcuts event rest

/-- `handleKeyDown` (lines 412-437): skip events from text-entry targets,
otherwise scan the flattened ordered snapshot. -/
def handleKeyDown (event : KeyEvent) (s : RegState) : DispatchResult :=
  if isTextEntryTarget event.target then
    { invoked := [], defaultPrevented := false, propagationStopped := false }
  else
    scanShortcuts event (getAllShortcuts s)

/-- A non-text-entry event target (e.g. `document.body`). -/
def plainTarget : EventTarget :=
  { isInput := false, isTextArea := false, isSelect := false
    contentEditable := "inherit" }

/-- Keyboard event with the given key data and a non-text-entry target. -/
def mkEvent (key code : String) (ctrlKey shiftKey altKey metaKey : Bool) :
    KeyEvent :=
  { key, code, ctrlKey, shiftKey, altKey, metaKey, target := plainTarget }

example :
    getShortcuts (updateRegistry (registerShortcut initialState "nav" "next"
      "ArrowDown" ⟨1, false⟩ "desc")) "nav" =
      [⟨"next", "ArrowDown", "desc", ⟨1, false⟩, "nav", true, none⟩] := by
  decide

example :
    getShortcuts (registerShortcut initialState "nav" "next"
      "ArrowDown" ⟨1, false⟩ "desc") "nav" = [] := by decide

example : matchesKeyCombo (mkEvent "m" "KeyM" true false false false)
    "Ctrl+M" = true := by decide

/-! ### Characterizations of the matcher -/

/-- Unfolding of `matchesKeyCombo` into its four conjuncts. -/
theorem matchesKeyCombo_iff (ev : KeyEvent) (c : String) :
    matchesKeyCombo ev c = true ↔
      ((normalizeEventKey ev.key = (parseKeyCombo c).key ∨
          jsLower ev.code = "key" ++ (parseKeyCombo c).key) ∧
        (parseKeyCombo c).ctrlKey = (ev.ctrlKey || ev.metaKey) ∧
        (parseKeyCombo c).shiftKey = ev.shiftKey ∧
        (parseKeyCombo c).altKey = ev.altKey) := by
  simp [matchesKeyCombo, and_assoc]

/-- `matchesKeyCombo` reads only the `key`, `ctrlKey`, `shiftKey` and
`altKey` fields of the parsed combo — never `metaKey`. -/
theorem matchesKeyCombo_congr (ev : KeyEvent) (c₁ c₂ : String)
    (hkey : (parseKeyCombo c₁).key = (parseKeyCombo c₂).key)
    (hctrl : (parseKeyCombo c₁).ctrlKey = (parseKeyCombo c₂).ctrlKey)
    (hshift : (parseKeyCombo c₁).shiftKey = (parseKeyCombo c₂).shiftKey)
    (halt : (parseKeyCombo c₁).altKey = (parseKeyCombo c₂).altKey) :
    matchesKeyCombo ev c₁ = matchesKeyCombo ev c₂ := by
  simp only [matchesKeyCombo, hkey, hctrl, hshift, halt]

/-! ### Characterization of the parser -/

/-- The trimmed, lower-cased token list of a combo string. -/
def comboTokens (s : String) : List String :=
  (jsSplitPlus (jsLower s)).map jsTrim

/-- The tokens the `switch` of `parseKeyCombo` recognizes as modifiers. -/
def isModifierToken (t : String) : Bool :=
  t == "ctrl" || t == "control" || t == "shift" || t == "alt" ||
    t == "cmd" || t == "meta"

/-- Declarative description of the parser loop: starting from accumulator
`acc`, the base key is the last non-modifier token (or `acc.key` when there
is none) and each modifier flag is set iff its token occurs (or it was
already set in `acc`). -/
theorem parseKeyComboAux_spec (parts : List String) (acc : KeyCombination) :
    parseKeyComboAux parts acc =
      { key := ((parts.map jsTrim).filter
          (fun t => !isModifierToken t)).getLastD acc.key
        ctrlKey := acc.ctrlKey ||
          (parts.map jsTrim).any (fun t => t == "ctrl" || t == "control")
        shiftKey := acc.shiftKey || (parts.map jsTrim).any (fun t => t == "shift")
        altKey := acc.altKey || (parts.map jsTrim).any (fun t => t == "alt")
        metaKey := acc.metaKey ||
          (parts.map jsTrim).any (fun t => t == "cmd" || t == "meta") } := by
  induction parts generalizing acc with
  | nil => simp [parseKeyComboAux]
  | cons p rest ih =>
    simp only [parseKeyComboAux, List.map_cons, List.filter_cons,
      List.any_cons]
    by_cases hmod : isModifierToken (jsTrim p) = true
    · have hcases := hmod
      simp only [isModifierToken, Bool.or_eq_true, beq_iff_eq] at hcases
      rcases hcases with ((((h | h) | h) | h) | h) | h <;>
        rw [h] <;>
        simp [ih, (by decide : isModifierToken "ctrl" = true),
          (by decide : isModifierToken "control" = true),
          (by decide : isModifierToken "shift" = true),
          (by decide : isModifierToken "alt" = true),
          (by decide : isModifierToken "cmd" = true),
          (by decide : isModifierToken "meta" = true),
          -List.getLastD_eq_getLast?]
    · have hind := hmod
      simp only [isModifierToken, Bool.or_eq_true, beq_iff_eq, not_or] at hind
      obtain ⟨⟨⟨⟨⟨hc1, hc2⟩, hc3⟩, hc4⟩, hc5⟩, hc6⟩ := hind
      rw [if_neg (by simp [hc1, hc2]), if_neg (by simp [hc3]),
        if_neg (by simp [hc4]), if_neg (by simp [hc5, hc6])]
      rw [ih]
      simp [Bool.eq_false_iff.mpr hmod, List.getLastD_cons,
        beq_eq_false_iff_ne.mpr hc1, beq_eq_false_iff_ne.mpr hc2,
        beq_eq_false_iff_ne.mpr hc3, beq_eq_false_iff_ne.mpr hc4,
        beq_eq_false_iff_ne.mpr hc5, beq_eq_false_iff_ne.mpr hc6,
        -List.getLastD_eq_getLast?]

/-! ### Characterization of the dispatch scan -/

/-- The predicate `shortcut.enabled && matchesKeyCombo(event, shortcut.keyCombo)`
tested by the dispatch loop. -/
def firesOn (event : KeyEvent) (e : ShortcutEntry) : Bool :=
  e.enabled && matchesKeyCombo event e.keyCombo

/-- The dispatch loop is exactly `List.find?` of the first enabled match:
it invokes that entry (only) and suppresses the event, or does nothing. -/
theorem scanShortcuts_eq_find (event : KeyEvent) (l : List ShortcutEntry) :
    scanShortcuts event l =
      match l.find? (firesOn event) with
      | none => { invoked := [], defaultPrevented := false
                  propagationStopped := false }
      | some e => { invoked := [e], defaultPrevented := true
                    propagationStopped := true } := by
  induction l with
  | nil => rfl
  | cons e rest ih =>
    by_cases h : firesOn event e = true
    · have h' : (e.enabled && matchesKeyCombo event e.keyCombo) = true := h
      simp only [scanShortcuts]
      rw [if_pos h', List.find?_cons_of_pos _ h]
    · have h' : ¬(e.enabled && matchesKeyCombo event e.keyCombo) = true := h
      simp only [scanShortcuts]
      rw [if_neg h', List.find?_cons_of_neg _ h, ih]

/-! ### Stable-sort lemmas for `sortByOrder` -/

theorem sortByOrder_sorted (l : List ShortcutEntry) :
    (sortByOrder l).Pairwise (fun a b => orderKey a ≤ orderKey b) := by
  have h := List.sorted_insertionSort orderLE l
  simpa [List.Sorted, sortByOrder, orderLE] using h

theorem sortByOrder_perm (l : List ShortcutEntry) :
    (sortByOrder l).Perm l :=
  List.perm_insertionSort orderLE l

/-- Stability of `sortByOrder` in filter form: the entries of any fixed
order key keep their relative order. -/
theorem sortByOrder_filter_key (l : List ShortcutEntry) (k : Int) :
    (sortByOrder l).filter (fun e => orderKey e == k) =
      l.filter (fun e => orderKey e == k) := by
  set p : ShortcutEntry → Bool := fun e => orderKey e == k with hp
  have hpair : (l.filter p).Pairwise orderLE := by
    apply List.pairwise_of_forall_mem_list
    intro a ha b hb
    have ha' := (List.mem_filter.mp ha).2
    have hb' := (List.mem_filter.mp hb).2
    simp only [hp, beq_iff_eq] at ha' hb'
    unfold orderLE
    rw [ha', hb']
  have hsub1 : List.Sublist (l.filter p) (sortByOrder l) :=
    List.sublist_insertionSort hpair (List.filter_sublist l)
  have hsub2 : List.Sublist (l.filter p) ((sortByOrder l).filter p) := by
    have h := List.Sublist.filter p hsub1
    rwa [List.filter_eq_self.mpr (fun a ha => (List.mem_filter.mp ha).2)] at h
  have hperm : ((sortByOrder l).filter p).Perm (l.filter p) :=
    (sortByOrder_perm l).filter p
  exact (hsub2.eq_of_length hperm.length_eq.symm).symm

/-! ### Association-list lemmas -/

theorem lookupA_setA_self {β : Type} (l : List (String × β)) (k : String)
    (v : β) : lookupA (setA l k v) k = some v := by
  induction l with
  | nil => simp [setA, lookupA]
  | cons kv rest ih =>
    obtain ⟨k', w⟩ := kv
    by_cases h : k' = k
    · simp [setA, lookupA, h]
    · simp [setA, lookupA, h, ih]

theorem lookupA_setA_ne {β : Type} (l : List (String × β)) {k' k : String}
    (v : β) (h : k' ≠ k) : lookupA (setA l k' v) k = lookupA l k := by
  induction l with
  | nil => simp [setA, lookupA, h]
  | cons kv rest ih =>
    obtain ⟨k₀, w⟩ := kv
    by_cases h0 : k₀ = k'
    · simp [setA, lookupA, h0, h, Ne.symm h]
    · by_cases h1 : k₀ = k <;>
        simp [setA, lookupA, h0, h1, Ne.symm h, ih]

theorem lookupA_eq_none_of_not_mem {β : Type} {l : List (String × β)}
    {k : String} (h : k ∉ l.map Prod.fst) : lookupA l k = none := by
  induction l with
  | nil => rfl
  | cons kv rest ih =>
    obtain ⟨k₀, w⟩ := kv
    simp only [List.map_cons, List.mem_cons, not_or] at h
    simp [lookupA, Ne.symm h.1, ih h.2]

theorem lookupA_deleteA_self {β : Type} {l : List (String × β)} {k : String}
    (h : (l.map Prod.fst).Nodup) : lookupA (deleteA l k) k = none := by
  induction l with
  | nil => rfl
  | cons kv rest ih =>
    obtain ⟨k₀, w⟩ := kv
    simp only [List.map_cons, List.nodup_cons] at h
    by_cases h0 : k₀ = k
    · subst h0
      simp [deleteA, lookupA_eq_none_of_not_mem h.1]
    · simp [deleteA, lookupA, h0, ih h.2]

theorem lookupA_some_mem {β : Type} {l : List (String × β)} {k : String}
    {v : β} (h : lookupA l k = some v) : (k, v) ∈ l := by
  induction l with
  | nil => simp [lookupA] at h
  | cons kv rest ih =>
    obtain ⟨k₀, w⟩ := kv
    by_cases h0 : k₀ = k
    · subst h0
      simp only [lookupA, if_pos] at h
      rw [show v = w from (Option.some.inj h).symm]
      exact List.mem_cons_self _ _
    · simp only [lookupA, if_neg h0] at h
      exact List.mem_cons_of_mem _ (ih h)

/-- A pair of `setA l k v` is a pair of `l` or has key `k`. -/
theorem fst_mem_setA {β : Type} {l : List (String × β)} {k : String} {v : β}
    {x : String × β} (h : x ∈ setA l k v) :
    x.1 ∈ l.map Prod.fst ∨ x.1 = k := by
  induction l with
  | nil =>
    simp only [setA, List.mem_singleton] at h
    exact Or.inr (by rw [h])
  | cons kv rest ih =>
    obtain ⟨k₀, w⟩ := kv
    by_cases h0 : k₀ = k
    · rw [setA, if_pos h0] at h
      rcases List.mem_cons.mp h with h1 | h1
      · exact Or.inr (by rw [h1])
      · exact Or.inl (by
          simp only [List.map_cons, List.mem_cons]
          exact Or.inr (List.mem_map_of_mem Prod.fst h1))
    · rw [setA, if_neg h0] at h
      rcases List.mem_cons.mp h with h1 | h1
      · exact Or.inl (by simp [h1])
      · rcases ih h1 with h2 | h2
        · exact Or.inl (by
            simp only [List.map_cons, List.mem_cons]
            exact Or.inr h2)
        · exact Or.inr h2

theorem keys_setA_nodup {β : Type} {l : List (String × β)} (k : String)
    (v : β) (h : (l.map Prod.fst).Nodup) :
    ((setA l k v).map Prod.fst).Nodup := by
  induction l with
  | nil => simp [setA]
  | cons kv rest ih =>
    obtain ⟨k₀, w⟩ := kv
    simp only [List.map_cons, List.nodup_cons] at h
    by_cases h0 : k₀ = k
    · subst h0
      have hs : setA ((k₀, w) :: rest) k₀ v = (k₀, v) :: rest := by
        simp [setA]
      rw [hs]
      simpa using h
    · have hmem : k₀ ∉ (setA rest k v).map Prod.fst := by
        intro hm
        rcases List.mem_map.mp hm with ⟨x, hx, hk⟩
        rcases fst_mem_setA hx with h4 | h4
        · exact h.1 (hk ▸ h4)
        · exact h0 (hk ▸ h4)
      simp only [setA, if_neg h0, List.map_cons, List.nodup_cons]
      exact ⟨hmem, ih h.2⟩

/-! ### Snapshot lookup lemmas -/

/-- Folding `setA` over categories never touches a key that is not among
them. -/
theorem foldl_setA_lookup_of_not_mem
    (registry : List (String × List (String × ShortcutEntry)))
    (acc : List (String × List ShortcutEntry)) {cat : String}
    (h : cat ∉ registry.map Prod.fst) :
    lookupA (registry.foldl
      (fun acc cm => setA acc cm.1 (sortByOrder (cm.2.map Prod.snd))) acc)
      cat = lookupA acc cat := by
  induction registry generalizing acc with
  | nil => rfl
  | cons cm rest ih =>
    obtain ⟨c₀, m₀⟩ := cm
    simp only [List.map_cons, List.mem_cons, not_or] at h
    rw [List.foldl_cons, ih _ h.2, lookupA_setA_ne _ _ (Ne.symm h.1)]

/-- Folding `setA` over a `Nodup`-keyed registry binds each present
category to its sorted entries, whatever the accumulator. -/
theorem foldl_setA_lookup
    {registry : List (String × List (String × ShortcutEntry))} {cat : String}
    {m : List (String × ShortcutEntry)}
    (hnd : (registry.map Prod.fst).Nodup) (h : lookupA registry cat = some m)
    (acc : List (String × List ShortcutEntry)) :
    lookupA (registry.foldl
      (fun acc cm => setA acc cm.1 (sortByOrder (cm.2.map Prod.snd))) acc)
      cat = some (sortByOrder (m.map Prod.snd)) := by
  induction registry generalizing acc with
  | nil => simp [lookupA] at h
  | cons cm rest ih =>
    obtain ⟨c₀, m₀⟩ := cm
    simp only [List.map_cons, List.nodup_cons] at hnd
    by_cases h0 : c₀ = cat
    · subst h0
      simp only [lookupA, if_pos rfl] at h
      rw [show m = m₀ from (Option.some.inj h).symm]
      rw [List.foldl_cons, foldl_setA_lookup_of_not_mem _ _ hnd.1,
        lookupA_setA_self]
    · simp only [lookupA, if_neg h0] at h
      rw [List.foldl_cons]
      exact ih hnd.2 h _

/-- After `updateRegistry`, a category present (with `Nodup` keys) in the
raw registry map is bound in the snapshot to its entries sorted by order. -/
theorem buildSnapshot_lookupA
    {registry : List (String × List (String × ShortcutEntry))} {cat : String}
    {m : List (String × ShortcutEntry)}
    (hnd : (registry.map Prod.fst).Nodup) (h : lookupA registry cat = some m) :
    lookupA (buildSnapshot registry) cat =
      some (sortByOrder (m.map Prod.snd)) :=
  foldl_setA_lookup hnd h _

/-! ### Claim theorems -/

/-- C2: `matchesKeyCombo` does exact (not subset) modifier matching with
ctrl/meta unification: a match forces the event's ctrl-or-meta state to
equal the combo's ctrl flag and the event's shift and alt states to equal
the combo's flags exactly; `{key:'a', ctrlKey:true}` matches `"Ctrl+A"`,
`{key:'a', metaKey:true}` matches `"Ctrl+A"`, `{key:'a', ctrlKey:true}`
does not match `"Shift+A"`, ctrl+shift pressed does not match `"Ctrl+A"`,
and a no-modifier combo only matches a no-modifier event. -/
theorem C2_exact_modifier_matching :
    (∀ (ev : KeyEvent) (c : String), matchesKeyCombo ev c = true →
      ((ev.ctrlKey || ev.metaKey) = (parseKeyCombo c).ctrlKey ∧
        ev.shiftKey = (parseKeyCombo c).shiftKey ∧
        ev.altKey = (parseKeyCombo c).altKey)) ∧
    matchesKeyCombo (mkEvent "a" "KeyA" true false false false) "Ctrl+A"
      = true ∧
    matchesKeyCombo (mkEvent "a" "KeyA" false false false true) "Ctrl+A"
      = true ∧
    matchesKeyCombo (mkEvent "a" "KeyA" true false false false) "Shift+A"
      = false ∧
    matchesKeyCombo (mkEvent "a" "KeyA" true true false false) "Ctrl+A"
      = false ∧
    (∀ ev : KeyEvent, matchesKeyCombo ev "a" = true →
      ev.ctrlKey = false ∧ ev.metaKey = false ∧ ev.shiftKey = false ∧
        ev.altKey = false) := by
  refine ⟨?_, by decide, by decide, by decide, by decide, ?_⟩
  · intro ev c h
    rcases (matchesKeyCombo_iff ev c).mp h with ⟨_, h2, h3, h4⟩
    exact ⟨h2.symm, h3.symm, h4.symm⟩
  · intro ev h
    rcases (matchesKeyCombo_iff ev "a").mp h with ⟨_, h2, h3, h4⟩
    have h2' : (ev.ctrlKey || ev.metaKey) = false := h2.symm
    obtain ⟨hcf, hmf⟩ := Bool.or_eq_false_iff.mp h2'
    exact ⟨hcf, hmf, h3.symm, h4.symm⟩

/-- Witness for C2: the general modifier-necessity conjunct applied to the
concrete event `{key:'a', ctrlKey:true}` and combo `"Ctrl+A"`. -/
theorem C2_exact_modifier_matching_witness :
    ((mkEvent "a" "KeyA" true false false false).ctrlKey ||
        (mkEvent "a" "KeyA" true false false false).metaKey) =
        (parseKeyCombo "Ctrl+A").ctrlKey ∧
      (mkEvent "a" "KeyA" true false false false).shiftKey =
        (parseKeyCombo "Ctrl+A").shiftKey ∧
      (mkEvent "a" "KeyA" true false false false).altKey =
        (parseKeyCombo "Ctrl+A").altKey :=
  C2_exact_modifier_matching.1 (mkEvent "a" "KeyA" true false false false)
    "Ctrl+A" (by decide)

/-- C5: `parseKeyCombo` splits on `'+'`, trims and lower-cases each token,
sets the ctrl/shift/alt/meta flags exactly when the corresponding modifier
tokens occur, and takes the last non-modifier token as the base key
(empty when there is none); it is a total function, so unrecognized tokens
are silently taken as the base key and no input is rejected. -/
theorem C5_parseKeyCombo_spec (s : String) :
    parseKeyCombo s =
      { key := ((comboTokens s).filter
          (fun t => !isModifierToken t)).getLastD ""
        ctrlKey := (comboTokens s).any (fun t => t == "ctrl" || t == "control")
        shiftKey := (comboTokens s).any (fun t => t == "shift")
        altKey := (comboTokens s).any (fun t => t == "alt")
        metaKey := (comboTokens s).any
          (fun t => t == "cmd" || t == "meta") } := by
  unfold parseKeyCombo comboTokens
  rw [parseKeyComboAux_spec]
  simp

/-- C6: `matchesKeyCombo` normalizes the event key before comparison —
`' '` becomes `"space"`, `"Escape"` (case-insensitively) becomes `"esc"`,
anything else is lower-cased — so a space key-press matches combo
`"Space"` and an Escape key-press matches combo `"Esc"`. -/
theorem C6_event_key_normalization :
    (∀ ev : KeyEvent, ev.key = " " → ev.ctrlKey = false → ev.metaKey = false →
      ev.shiftKey = false → ev.altKey = false →
      matchesKeyCombo ev "Space" = true) ∧
    (∀ ev : KeyEvent, jsLower ev.key = "escape" → ev.ctrlKey = false →
      ev.metaKey = false → ev.shiftKey = false → ev.altKey = false →
      matchesKeyCombo ev "Esc" = true) ∧
    (∀ k : String, jsLower k ≠ " " → jsLower k ≠ "escape" →
      normalizeEventKey k = jsLower k) ∧
    normalizeEventKey " " = "space" ∧
    normalizeEventKey "Escape" = "esc" := by
  refine ⟨?_, ?_, ?_, by decide, by decide⟩
  · intro ev h1 h2 h3 h4 h5
    rw [matchesKeyCombo_iff]
    refine ⟨Or.inl ?_, ?_, ?_, ?_⟩
    · rw [h1]; decide
    · rw [h2, h3]; decide
    · rw [h4]; decide
    · rw [h5]; decide
  · intro ev h1 h2 h3 h4 h5
    rw [matchesKeyCombo_iff]
    have hk : normalizeEventKey ev.key = "esc" := by
      unfold normalizeEventKey
      rw [h1]
      decide
    refine ⟨Or.inl ?_, ?_, ?_, ?_⟩
    · rw [hk]; decide
    · rw [h2, h3]; decide
    · rw [h4]; decide
    · rw [h5]; decide
  · intro k hk1 hk2
    have h1 : (jsLower k == " ") = false := by simpa using hk1
    have h2 : (jsLower k == "escape") = false := by simpa using hk2
    simp [normalizeEventKey, h1, h2]

/-- Witness for C6: the space and escape conjuncts applied to concrete
key-press events. -/
theorem C6_event_key_normalization_witness :
    matchesKeyCombo (mkEvent " " "Space" false false false false) "Space"
      = true :=
  C6_event_key_normalization.1 (mkEvent " " "Space" false false false false)
    rfl rfl rfl rfl rfl

/-! ### C9 machinery: the combo tokens with cmd/meta removed -/

/-- The combo's token list with all `cmd`/`meta` tokens removed. -/
def nonMetaTokens (s : String) : List String :=
  (comboTokens s).filter (fun t => !(t == "cmd" || t == "meta"))

theorem any_filter_of_imp {α : Type} (f q : α → Bool)
    (h : ∀ a, f a = true → q a = true) (l : List α) :
    (l.filter q).any f = l.any f := by
  induction l with
  | nil => rfl
  | cons a rest ih =>
    by_cases hq : q a = true
    · simp [List.filter_cons, hq, ih]
    · have hf : f a = false := by
        cases hfa : f a
        · rfl
        · exact absurd (h a hfa) hq
      simp [List.filter_cons, Bool.eq_false_iff.mpr hq, hf, ih]

theorem filter_filter_of_imp {α : Type} (p q : α → Bool)
    (h : ∀ a, p a = true → q a = true) (l : List α) :
    (l.filter q).filter p = l.filter p := by
  induction l with
  | nil => rfl
  | cons a rest ih =>
    by_cases hq : q a = true
    · simp [List.filter_cons, hq, ih]
    · have hp : p a = false := by
        cases hpa : p a
        · rfl
        · exact absurd (h a hpa) hq
      simp [List.filter_cons, Bool.eq_false_iff.mpr hq, hp, ih]

theorem nonmod_not_meta (t : String) (h : (!isModifierToken t) = true) :
    (!(t == "cmd" || t == "meta")) = true := by
  simp only [isModifierToken, Bool.not_eq_true', Bool.or_eq_false_iff] at h
  simp [h.1.2, h.2]

theorem parse_key_nonMeta (s : String) :
    (parseKeyCombo s).key =
      ((nonMetaTokens s).filter (fun t => !isModifierToken t)).getLastD "" := by
  rw [C5_parseKeyCombo_spec, nonMetaTokens,
    filter_filter_of_imp _ _ nonmod_not_meta]

theorem parse_ctrl_nonMeta (s : String) :
    (parseKeyCombo s).ctrlKey =
      (nonMetaTokens s).any (fun t => t == "ctrl" || t == "control") := by
  rw [C5_parseKeyCombo_spec, nonMetaTokens, any_filter_of_imp]
  intro a ha
  rcases Bool.or_eq_true_iff.mp ha with h | h <;>
    · rw [show a = _ from beq_iff_eq.mp h]
      decide

theorem parse_shift_nonMeta (s : String) :
    (parseKeyCombo s).shiftKey =
      (nonMetaTokens s).any (fun t => t == "shift") := by
  rw [C5_parseKeyCombo_spec, nonMetaTokens, any_filter_of_imp]
  intro a ha
  rw [show a = _ from beq_iff_eq.mp ha]
  decide

theorem parse_alt_nonMeta (s : String) :
    (parseKeyCombo s).altKey =
      (nonMetaTokens s).any (fun t => t == "alt") := by
  rw [C5_parseKeyCombo_spec, nonMetaTokens, any_filter_of_imp]
  intro a ha
  rw [show a = _ from beq_iff_eq.mp ha]
  decide

/-- C9: `matchesKeyCombo` never consults the combo's meta flag: two combo
strings whose token lists agree after deleting all `cmd`/`meta` tokens are
indistinguishable to the matcher (so adding or removing `cmd`/`meta`
tokens cannot change the result); concretely, an event with no modifiers
pressed matches `"Cmd+D"`, and an event with the meta key pressed does not
match `"Cmd+D"`. -/
theorem C9_meta_flag_ignored :
    (∀ (ev : KeyEvent) (c₁ c₂ : String),
      nonMetaTokens c₁ = nonMetaTokens c₂ →
      matchesKeyCombo ev c₁ = matchesKeyCombo ev c₂) ∧
    matchesKeyCombo (mkEvent "d" "KeyD" false false false false) "Cmd+D"
      = true ∧
    matchesKeyCombo (mkEvent "d" "KeyD" false false false true) "Cmd+D"
      = false := by
  refine ⟨?_, by decide, by decide⟩
  intro ev c₁ c₂ h
  apply matchesKeyCombo_congr
  · rw [parse_key_nonMeta, parse_key_nonMeta, h]
  · rw [parse_ctrl_nonMeta, parse_ctrl_nonMeta, h]
  · rw [parse_shift_nonMeta, parse_shift_nonMeta, h]
  · rw [parse_alt_nonMeta, parse_alt_nonMeta, h]

/-- Witness for C9: `"Cmd+D"` and `"D"` agree after deleting `cmd`/`meta`
tokens, so the matcher cannot tell them apart on any event. -/
theorem C9_meta_flag_ignored_witness :
    matchesKeyCombo (mkEvent "d" "KeyD" false false false false) "Cmd+D" =
      matchesKeyCombo (mkEvent "d" "KeyD" false false false false) "D" :=
  C9_meta_flag_ignored.1 (mkEvent "d" "KeyD" false false false false)
    "Cmd+D" "D" (by decide)

/-- C1: on a key-press from a non-text-entry target, the dispatch handler
equals a first-match scan over the flattened ordered snapshot: it invokes
at most one action — the earliest enabled matching entry, with the event's
default behavior and propagation suppressed — and every invoked entry is
enabled and matching, so disabled entries and later matches never fire. -/
theorem C1_dispatch_first_enabled_match (ev : KeyEvent) (s : RegState)
    (h : isTextEntryTarget ev.target = false) :
    handleKeyDown ev s =
      (match (getAllShortcuts s).find? (firesOn ev) with
        | none => { invoked := [], defaultPrevented := false
                    propagationStopped := false }
        | some e => { invoked := [e], defaultPrevented := true
                      propagationStopped := true }) ∧
    (handleKeyDown ev s).invoked.length ≤ 1 ∧
    ∀ e ∈ (handleKeyDown ev s).invoked,
      e.enabled = true ∧ matchesKeyCombo ev e.keyCombo = true := by
  have hh : handleKeyDown ev s = scanShortcuts ev (getAllShortcuts s) := by
    unfold handleKeyDown
    rw [if_neg (by simp [h])]
  rw [hh, scanShortcuts_eq_find]
  refine ⟨rfl, ?_, ?_⟩
  · cases hf : (getAllShortcuts s).find? (firesOn ev) <;> simp [hf]
  · cases hf : (getAllShortcuts s).find? (firesOn ev) with
    | none => simp
    | some e =>
      simp only [List.mem_singleton]
      intro e' he'
      subst he'
      have hfire := List.find?_some hf
      simp only [firesOn, Bool.and_eq_true] at hfire
      exact hfire

/-- A snapshot with a disabled `"Ctrl+K"` entry first, then two enabled
`"Ctrl+K"` entries in different categories. -/
def dispatchExampleState : RegState :=
  updateRegistry
    (registerShortcut
      (registerShortcut
        (registerShortcut initialState "tools" "disabled-one" "Ctrl+K"
          ⟨1, false⟩ "d" false none)
        "tools" "first" "Ctrl+K" ⟨2, false⟩ "d" true none)
      "editing" "second" "Ctrl+K" ⟨3, false⟩ "d" true none)

/-- Witness for C1 at a concrete event and snapshot (the disabled entry is
skipped and only the first enabled match fires). -/
theorem C1_dispatch_first_enabled_match_witness :
    (handleKeyDown (mkEvent "k" "KeyK" true false false false)
        dispatchExampleState).invoked.length ≤ 1 :=
  (C1_dispatch_first_enabled_match (mkEvent "k" "KeyK" true false false false)
    dispatchExampleState (by decide)).2.1

/-- C7: when the event's target is a text-entry-capable element (input,
textarea, select, or active contentEditable), the dispatch handler does
nothing: no action is invoked and the event's default behavior and
propagation are untouched. -/
theorem C7_text_entry_guard (ev : KeyEvent) (s : RegState)
    (h : isTextEntryTarget ev.target = true) :
    handleKeyDown ev s =
      { invoked := [], defaultPrevented := false
        propagationStopped := false } := by
  unfold handleKeyDown
  rw [if_pos h]

/-- Witness for C7: a Ctrl+K press originating from an `<input>` element is
ignored even though an enabled `"Ctrl+K"` entry is registered. -/
theorem C7_text_entry_guard_witness :
    handleKeyDown
      { key := "k", code := "KeyK", ctrlKey := true, shiftKey := false
        altKey := false, metaKey := false
        target := { isInput := true, isTextArea := false, isSelect := false
                    contentEditable := "false" } }
      dispatchExampleState =
      { invoked := [], defaultPrevented := false
        propagationStopped := false } :=
  C7_text_entry_guard _ dispatchExampleState (by decide)

/-- The raw-registry lookup `shortcutsRegistry.get(category)?.get(name)`. -/
def lookupEntry (s : RegState) (category name : String) :
    Option ShortcutEntry :=
  (lookupA s.registry category).bind (fun registry => lookupA registry name)

/-- `executeShortcut` as one match on the two-level lookup. -/
theorem executeShortcut_eq (s : RegState) (c n : String) :
    executeShortcut s c n =
      match lookupEntry s c n with
      | none => (s, false, [])
      | some shortcut =>
        if !shortcut.enabled then (s, false, [])
        else if shortcut.action.throws then (s, false, [shortcut.action.id])
        else (s, true, [shortcut.action.id]) := by
  unfold executeShortcut lookupEntry
  cases hc : lookupA s.registry c with
  | none => rfl
  | some m => rfl

/-- C8: registry-level operations are total — modelled as total Lean
functions — and lookup misses are values, not errors: unknown categories
give `[]` / `false` / a no-op unregister, and `executeShortcut` returns
`false` for an absent or disabled entry, while for an enabled entry it
invokes the action and returns `true` exactly when the action does not
throw (a thrown exception is caught, turning into `false`, never
propagated). -/
theorem C8_total_operations :
    (∀ (s : RegState) (c : String), lookupA s.snapshot c = none →
      getShortcuts s c = []) ∧
    (∀ (s : RegState) (c n : String), lookupA s.registry c = none →
      hasShortcut s c n = false) ∧
    (∀ (s : RegState) (c n : String), lookupA s.registry c = none →
      unregisterShortcut s c n = s) ∧
    (∀ (s : RegState) (c n : String), lookupEntry s c n = none →
      executeShortcut s c n = (s, false, [])) ∧
    (∀ (s : RegState) (c n : String) (e : ShortcutEntry),
      lookupEntry s c n = some e → e.enabled = false →
      executeShortcut s c n = (s, false, [])) ∧
    (∀ (s : RegState) (c n : String) (e : ShortcutEntry),
      lookupEntry s c n = some e → e.enabled = true →
      executeShortcut s c n = (s, !e.action.throws, [e.action.id])) := by
  refine ⟨?_, ?_, ?_, ?_, ?_, ?_⟩
  · intro s c h
    simp [getShortcuts, h]
  · intro s c n h
    simp [hasShortcut, h]
  · intro s c n h
    simp [unregisterShortcut, h]
  · intro s c n h
    rw [executeShortcut_eq, h]
  · intro s c n e h hen
    rw [executeShortcut_eq, h]
    simp [hen]
  · intro s c n e h hen
    rw [executeShortcut_eq, h]
    cases ht : e.action.throws <;> simp [hen, ht]

/-- Witness for C8: looking up an entry that was never registered returns
`false` without invoking anything. -/
theorem C8_total_operations_witness :
    executeShortcut initialState "nope" "missing" = (initialState, false, []) :=
  C8_total_operations.2.2.2.1 initialState "nope" "missing" (by decide)

/-- C10: when the entry exists, is enabled, and its action throws,
`executeShortcut` invokes the action, returns `false` (indistinguishable
from the absent/disabled result), and leaves the registry state unchanged
(the returned state is exactly the input state). -/
theorem C10_execute_throwing_action (s : RegState) (c n : String)
    (e : ShortcutEntry) (h : lookupEntry s c n = some e)
    (hen : e.enabled = true) (hth : e.action.throws = true) :
    executeShortcut s c n = (s, false, [e.action.id]) := by
  rw [executeShortcut_eq, h]
  simp [hen, hth]

/-- A registry holding one enabled entry whose action throws. -/
def throwingExampleState : RegState :=
  registerShortcut initialState "tools" "boom" "Ctrl+B" ⟨7, true⟩ "d" true
    none

/-- Witness for C10: executing the throwing entry returns `false`, records
the invocation, and returns the state unchanged. -/
theorem C10_execute_throwing_action_witness :
    executeShortcut throwingExampleState "tools" "boom" =
      (throwingExampleState, false, [7]) :=
  C10_execute_throwing_action throwingExampleState "tools" "boom"
    ⟨"boom", "Ctrl+B", "d", ⟨7, true⟩, "tools", true, none⟩ (by decide) rfl
    rfl

/-- The scenario state of C3: `("nav","next")` then `("edit","del")`
registered without `order`, snapshot committed. -/
def scenarioState : RegState :=
  updateRegistry
    (registerShortcut
      (registerShortcut initialState "nav" "next" "ArrowDown" ⟨1, false⟩
        "desc" true none)
      "edit" "del" "Delete" ⟨2, false⟩ "desc" true none)

/-- C3 (amended): `getAllShortcuts` returns all snapshot entries (a
permutation of the flattened snapshot), sorted ascending by the key
`order ?? MAX_SAFE_INTEGER` — so undefined-order entries sort after every
entry whose order is below `MAX_SAFE_INTEGER`, but tie with an order of
exactly `MAX_SAFE_INTEGER` — with ties kept in flatten order (category
enumeration order, then per-category position, which for equal orders is
insertion order); it is a pure function of the state, so repeated calls
with no mutation agree; and the `("nav","next")`/`("edit","del")` scenario
lists `next` before `del`. -/
theorem C3_getAllShortcuts_ordering :
    (∀ s : RegState,
      (getAllShortcuts s).Pairwise (fun a b => orderKey a ≤ orderKey b)) ∧
    (∀ s : RegState, (getAllShortcuts s).Perm (flattenedSnapshot s)) ∧
    (∀ (s : RegState) (k : Int),
      (getAllShortcuts s).filter (fun e => orderKey e == k) =
        (flattenedSnapshot s).filter (fun e => orderKey e == k)) ∧
    (∀ (s : RegState) (c : String) (m : List (String × ShortcutEntry))
      (k : Int), (s.registry.map Prod.fst).Nodup →
      lookupA s.registry c = some m →
      (getShortcuts (updateRegistry s) c).filter
          (fun e => orderKey e == k) =
        (m.map Prod.snd).filter (fun e => orderKey e == k)) ∧
    (getAllShortcuts scenarioState).map (fun e => e.name) =
      ["next", "del"] := by
  refine ⟨fun s => sortByOrder_sorted _, fun s => sortByOrder_perm _,
    fun s k => sortByOrder_filter_key _ k, ?_, by decide⟩
  intro s c m k hnd hm
  unfold getShortcuts updateRegistry
  rw [buildSnapshot_lookupA hnd hm]
  simp only [Option.getD_some]
  exact sortByOrder_filter_key _ k

/-- Two entries in one category: first registered without `order`, second
with `order = Number.MAX_SAFE_INTEGER` (the sentinel the source uses for
missing orders). -/
def orderBoundaryState : RegState :=
  updateRegistry
    (registerShortcut
      (registerShortcut initialState "custom" "b" "Ctrl+B" ⟨1, false⟩ "d"
        true none)
      "custom" "a" "Ctrl+A" ⟨2, false⟩ "d" true (some 9007199254740991))

/-- Counterexample to C3 as stated: the undefined-order entry `"b"` is
listed BEFORE the entry `"a"` whose `order` is defined (equal to
`Number.MAX_SAFE_INTEGER`), because missing orders are replaced by that
same sentinel and the comparator ties. -/
theorem C3_undefined_order_not_last :
    (getAllShortcuts orderBoundaryState).map (fun e => (e.name, e.order)) =
      [("b", none), ("a", some 9007199254740991)] := by decide

/-- Well-formedness invariant of the two-level registry map: category keys
are distinct, and within each category the entry names are distinct
(automatic for JS `Map`s; states reachable from `initialState` satisfy
it). -/
def WFState (s : RegState) : Prop :=
  (s.registry.map Prod.fst).Nodup ∧
    ∀ p ∈ s.registry, (p.2.map Prod.fst).Nodup

/-- Counterexample to C4 as stated: immediately after `registerShortcut`
(no debounce flush), `getShortcuts` still reads the stale store snapshot
and does NOT contain the new entry. -/
theorem C4_getShortcuts_lags_register :
    getShortcuts
      (registerShortcut initialState "nav" "next" "ArrowDown" ⟨1, false⟩
        "desc" true none) "nav" = [] := by
  decide

/-- C4 (amended): `hasShortcut` reads the raw registry map, so register
then immediately `hasShortcut` is `true` and unregister then immediately
`hasShortcut` is `false`; `getShortcuts` reads the debounced store
snapshot, so it reflects a new entry only once the debounced
`updateRegistry` has run, at which point the registered entry is in the
category's sequence. -/
theorem C4_register_unregister_lookup :
    (∀ (s : RegState) (c n combo : String) (act : ShortcutAction)
      (d : String) (en : Bool) (ord : Option Int),
      hasShortcut (registerShortcut s c n combo act d en ord) c n = true) ∧
    (∀ (s : RegState) (c n combo : String) (act : ShortcutAction)
      (d : String) (en : Bool) (ord : Option Int), WFState s →
      ({ name := n, keyCombo := combo, description := d, action := act
         category := c, enabled := en, order := ord } : ShortcutEntry) ∈
        getShortcuts
          (updateRegistry (registerShortcut s c n combo act d en ord)) c) ∧
    (∀ (s : RegState) (c n : String), WFState s →
      hasShortcut (unregisterShortcut s c n) c n = false) := by
  refine ⟨?_, ?_, ?_⟩
  · intro s c n combo act d en ord
    simp [hasShortcut, registerShortcut, lookupA_setA_self]
  · intro s c n combo act d en ord hWF
    unfold getShortcuts updateRegistry registerShortcut
    have hnd : (((registerShortcut s c n combo act d en ord).registry.map
        Prod.fst)).Nodup := keys_setA_nodup _ _ hWF.1
    unfold registerShortcut at hnd
    rw [buildSnapshot_lookupA hnd (lookupA_setA_self _ _ _)]
    simp only [Option.getD_some]
    rw [(sortByOrder_perm _).mem_iff]
    exact List.mem_map_of_mem Prod.snd
      (lookupA_some_mem (lookupA_setA_self _ _ _))
  · intro s c n hWF
    unfold unregisterShortcut
    cases hc : lookupA s.registry c with
    | none => simp [hasShortcut, hc]
    | some m =>
      by_cases he : (deleteA m n).isEmpty = true
      · simp only [he, if_true]
        simp [hasShortcut, lookupA_deleteA_self hWF.1]
      · simp only [he, if_false]
        have hmn : (m.map Prod.fst).Nodup :=
          hWF.2 (c, m) (lookupA_some_mem hc)
        simp [hasShortcut, lookupA_setA_self, lookupA_deleteA_self hmn]

/-- Witness for C4 (amended): concrete register-then-flush-then-lookup. -/
theorem C4_register_unregister_lookup_witness :
    ({ name := "next", keyCombo := "ArrowDown", description := "desc"
       action := ⟨1, false⟩, category := "nav", enabled := true
       order := none } : ShortcutEntry) ∈
      getShortcuts
        (updateRegistry (registerShortcut initialState "nav" "next"
          "ArrowDown" ⟨1, false⟩ "desc" true none)) "nav" :=
  C4_register_unregister_lookup.2.1 initialState "nav" "next" "ArrowDown"
    ⟨1, false⟩ "desc" true none ⟨by decide, by decide⟩

/-- Witness for C3 (amended): the per-category tie-break conjunct applied
to the concrete two-entry registry of the scenario. -/
theorem C3_getAllShortcuts_ordering_witness :
    (getShortcuts (updateRegistry
        (registerShortcut
          (registerShortcut initialState "nav" "next" "ArrowDown" ⟨1, false⟩
            "desc" true none)
          "edit" "del" "Delete" ⟨2, false⟩ "desc" true none)) "nav").filter
        (fun e => orderKey e == 9007199254740991) =
      (([("next",
          ({ name := "next", keyCombo := "ArrowDown", description := "desc"
             action := ⟨1, false⟩, category := "nav", enabled := true
             order := none } : ShortcutEntry))] :
            List (String × ShortcutEntry)).map Prod.snd).filter
        (fun e => orderKey e == 9007199254740991) :=
  C3_getAllShortcuts_ordering.2.2.2.1
    (registerShortcut
      (registerShortcut initialState "nav" "next" "ArrowDown" ⟨1, false⟩
        "desc" true none)
      "edit" "del" "Delete" ⟨2, false⟩ "desc" true none)
    "nav" _ 9007199254740991 (by decide) (by decide)
